import Mathlib

set_option maxRecDepth 100000

/-!
Verification of `automate.py` (MolSSI/mm-portal).

The script is a linear batch transform: it loads a JSON object mapping
component names to raw field mappings, validates each mapping with a
pydantic model (`CompModel`), resolves an optional image (remote download
into `static/components/tmp` or local existence check), renders a fixed
front-matter template and writes one output directory per component under
`content/components`.

The embedding below models:
  - JSON values restricted to the shapes the script manipulates
    (strings, lists, null);
  - the filesystem as a finite map from paths (lists of components) to
    file contents, plus a set of directories;
  - the network and the uuid4 stream as components of a pure environment
    (`Env`): `requests.get` statuses, downloaded bodies, the successive
    uuid draws and today's date string;
  - Python exception outcomes as an explicit error type: pydantic v1
    wraps ValueError/TypeError/AssertionError raised in a validator into
    a ValidationError, while any other exception (NameError,
    AttributeError, ...) escapes uncaught;
  - the unbounded recursion of `random_file` with a fuel parameter; fuel
    exhaustion is reported as `PyError.RecursionError`, the exception
    CPython itself raises when the recursion never finds a fresh name.

Paths are modelled relative to the working directory: `Path.absolute()`
is the identity in the model, which is harmless because the script only
ever takes the basename of the stored absolute path.
-/

namespace Automate

/-- Fixed tag vocabulary (`class TagEnum(Enum)` in automate.py). -/
inductive TagEnum where
  | ForceFields
  | Assigners
  | Gromacs
  | Strategy
  | Tactic
  | Util
  | Simulators
  | MMSchema
  | Translators
deriving DecidableEq

/-- Python `member.value` of `TagEnum`. -/
def TagEnum.value : TagEnum → String
  | .ForceFields => "forcefields"
  | .Assigners => "assigners"
  | .Gromacs => "gromacs"
  | .Strategy => "strategy"
  | .Tactic => "tactic"
  | .Util => "util"
  | .Simulators => "simulators"
  | .MMSchema => "mmschema"
  | .Translators => "translators"

/-- Python `member.name` of `TagEnum` (the symbolic member name). -/
def TagEnum.tagName : TagEnum → String
  | .ForceFields => "ForceFields"
  | .Assigners => "Assigners"
  | .Gromacs => "Gromacs"
  | .Strategy => "Strategy"
  | .Tactic => "Tactic"
  | .Util => "Util"
  | .Simulators => "Simulators"
  | .MMSchema => "MMSchema"
  | .Translators => "Translators"

/-- Coercion of a raw string into the enum, as pydantic does by value. -/
def tagOfValue : String → Option TagEnum
  | "forcefields" => some .ForceFields
  | "assigners" => some .Assigners
  | "gromacs" => some .Gromacs
  | "strategy" => some .Strategy
  | "tactic" => some .Tactic
  | "util" => some .Util
  | "simulators" => some .Simulators
  | "mmschema" => some .MMSchema
  | "translators" => some .Translators
  | _ => none

/-- JSON values, restricted to the shapes the script manipulates. -/
inductive JValue where
  | jstr (s : String)
  | jlist (xs : List JValue)
  | jnull

/-- A raw field mapping: a JSON object in iteration order.  Keys are
unique because JSON objects are loaded into Python dicts. -/
abbrev Fields := List (String × JValue)

/-- Python exception outcomes relevant to the script.  `RecursionError`
marks the unbounded recursion of `random_file` exceeding its fuel, the
exception CPython raises in that situation. -/
inductive PyError where
  | ValidationError
  | TypeError
  | NameError
  | AttributeError
  | FileNotFoundError
  | RecursionError
deriving DecidableEq

/-- List of path components; `["content","components"]` stands for the
relative path `content/components`. -/
abbrev PathC := List String

/-- Split a character list at every occurrence of `c` (semantics of
Python `str.split(sep)` for a one-character separator). -/
def splitChar (c : Char) : List Char → List (List Char)
  | [] => [[]]
  | x :: xs =>
    match splitChar c xs with
    | [] => [[]]
    | h :: t => if x = c then [] :: h :: t else (x :: h) :: t

/-- Path components of a string path (Python `Path(v)` / `str.split("/")`). -/
def pathOfString (s : String) : PathC :=
  (splitChar '/' s.data).map String.mk

/-- Basename of a string path (Python `Path(v).name`). -/
def pathName (s : String) : String :=
  String.mk ((splitChar '/' s.data).getLastD [])

/-- Python `str.startswith(pre)`. -/
def strStartsWith (s pre : String) : Bool :=
  pre.data.isPrefixOf s.data

/-- Python `int(...)` on a digit string. -/
def digitsVal (l : List Char) : Nat :=
  l.foldl (fun acc c => acc * 10 + (c.toNat - '0'.toNat)) 0

/-- Python `str.join` (used for rendering a path back to a string and
for `",".join` in the tag rendering). -/
def strJoin (sep : String) : List String → String
  | [] => ""
  | [x] => x
  | x :: y :: t => x ++ sep ++ strJoin sep (y :: t)

/-- Render a component path back to a string (`str(path)`). -/
def pathToString (p : PathC) : String := strJoin "/" p

/-- Split a string into lines at newline characters. -/
def linesOf (s : String) : List String :=
  (splitChar '\n' s.data).map String.mk

/-- A front-matter line carrying the `summaryImage` key. -/
def isSummaryImageLine (l : String) : Bool :=
  "summaryImage".data.isPrefixOf l.data

/-- Join a directory path with a further string path (Python `/` on
`Path`, which splits the right operand at slashes). -/
def pathJoin (dir : PathC) (s : String) : PathC := dir ++ pathOfString s

/-- The shared temporary download directory `static/components/tmp`. -/
def tmpRoot : PathC := ["static", "components", "tmp"]

/-- The output root `content/components`. -/
def contentRoot : PathC := ["content", "components"]

/-- Filesystem model: files as a finite map from paths to contents, plus
the set of existing directories. -/
structure FS where
  files : List (PathC × String)
  dirs : List PathC
deriving DecidableEq

def FS.isFile (fs : FS) (p : PathC) : Bool :=
  fs.files.any (fun f => f.1 == p)

def FS.lookupFile (fs : FS) (p : PathC) : Option String :=
  (fs.files.find? (fun f => f.1 == p)).map Prod.snd

def FS.isDir (fs : FS) (p : PathC) : Bool :=
  fs.dirs.any (fun d => d == p)

/-- Writing a file (`open(p, "w")`/`open(p, "wb")` followed by writes).
Creation of the parent directory always precedes the write in the
script, so the write itself is modelled as always succeeding. -/
def FS.writeFile (fs : FS) (p : PathC) (c : String) : FS :=
  ⟨(p, c) :: fs.files.filter (fun f => f.1 != p), fs.dirs⟩

/-- `Path.mkdir()`.  The script only creates directories whose parent
exists at that point (`content/components` is asserted at startup and
`static/components` holds the input file), so creation is modelled as
always succeeding. -/
def FS.mkdir (fs : FS) (p : PathC) : FS :=
  ⟨fs.files, p :: fs.dirs⟩

/-- `shutil.rmtree(p)`: remove the directory and everything below it. -/
def FS.rmtree (fs : FS) (p : PathC) : FS :=
  ⟨fs.files.filter (fun f => !(p.isPrefixOf f.1)),
   fs.dirs.filter (fun d => !(p.isPrefixOf d))⟩

/-- Pure environment: network answers, downloaded bodies, the uuid4
stream and today's date string. -/
structure Env where
  getOk : String → Bool
  body : String → String
  uuid : Nat → String
  today : String

/-- Mutable state threaded through the run: the filesystem, the position
in the uuid stream, and a counter of `shutil.rmtree` calls on the shared
temporary directory (used to state the cleanup claims). -/
structure State where
  fs : FS
  nextUuid : Nat
  tmpRemovals : Nat
deriving DecidableEq

/-- The `random_file` helper of automate.py: draw `uuid4()` names until
one does not exist on disk (when `unique` is set).  The recursion of the
source is unbounded; `fuel` bounds it in the model, and callers receive
`none` when the fuel is exhausted. Returns the generated path and the
next position in the uuid stream. -/
def random_file (env : Env) (suffix : String) (path : PathC) (unique : Bool)
    (fs : FS) : Nat → Nat → Option (PathC × Nat)
  | 0, _ => none
  | fuel + 1, k =>
    let fname := env.uuid k ++ suffix
    let fpath := pathJoin path fname
    if unique && fs.isFile fpath then
      random_file env suffix path unique fs fuel (k + 1)
    else
      some (fpath, k + 1)

/-- Outcome of running the `image` field through pydantic: a value, a
collected field error (pydantic catches ValueError/TypeError/
AssertionError raised in a validator), or an uncaught exception. -/
inductive ImgResult where
  | ok (v : Option String)
  | fieldError
  | uncaught (e : PyError)
deriving DecidableEq

/-- The `_valid_image` validator.  For a remote image: check the
download status, create the temporary directory when absent, generate a
unique file name and stream the body into it, returning the (absolute)
path of the temporary file.  For a local path: the `assert
pfile.is_file()` has a message f-string referencing the undefined name
`p`, so a missing local file raises NameError while building the
assertion message; that exception is not one pydantic converts into a
ValidationError. -/
def valid_image (env : Env) (st : State) (v : String) : ImgResult × State :=
  if strStartsWith v "http" then
    let ext := String.mk ((splitChar '.' v.data).getLastD [])
    if env.getOk v then
      let fs1 := if st.fs.isDir tmpRoot then st.fs else st.fs.mkdir tmpRoot
      match random_file env ("." ++ ext) tmpRoot true fs1 (fs1.files.length + 1) st.nextUuid with
      | some (pfile, k) =>
        let vabs := pathToString pfile
        let fs2 := fs1.writeFile pfile (env.body v)
        (.ok (some vabs), ⟨fs2, k, st.tmpRemovals⟩)
      | none => (.uncaught .RecursionError, ⟨fs1, st.nextUuid, st.tmpRemovals⟩)
    else
      (.fieldError, st)
  else
    if st.fs.isFile (pathOfString v) then (.ok (some v), st)
    else (.uncaught .NameError, st)

/-- Pydantic's handling of the `image` field: omitted fields keep the
default `None` and skip the validator; an explicit `null` reaches the
validator as `None`, whose `.startswith` raises AttributeError; a
non-string value fails the `Optional[str]` type check (a collected field
error) and skips the validator. -/
def imageStep (env : Env) (st : State) : Option JValue → ImgResult × State
  | none => (.ok none, st)
  | some (.jstr v) => valid_image env st v
  | some .jnull => (.uncaught .AttributeError, st)
  | some (.jlist _) => (.fieldError, st)

/-- Parse a JSON list into tag members; any element outside the
vocabulary (or not a string) fails. -/
def parseTags : List JValue → Option (List TagEnum)
  | [] => some []
  | .jstr s :: xs =>
    match tagOfValue s, parseTags xs with
    | some t, some ts => some (t :: ts)
    | _, _ => none
  | _ :: _ => none

def isDigits (s : String) : Bool :=
  !s.data.isEmpty && s.data.all Char.isDigit

def isLeap (y : Nat) : Bool :=
  (y % 4 == 0 && y % 100 != 0) || (y % 400 == 0)

def daysInMonth (y m : Nat) : Nat :=
  if m == 2 then (if isLeap y then 29 else 28)
  else if m == 4 || m == 6 || m == 9 || m == 11 then 30
  else 31

/-- Value of the `%d` field, allowing the space-padded single-digit
alternative of CPython's pattern. -/
def dayVal (ds : String) : Nat :=
  match ds.data with
  | [' ', c] => c.toNat - '0'.toNat
  | _ => digitsVal ds.data

/-- Shape of the `%d` field per CPython's pattern
`3[0-1]|[1-2]\d|0[1-9]|[1-9]| [1-9]`: one or two digits, or a space
followed by a digit (a zero there is excluded by the value check in
`strptimeOk`). -/
def dayShapeOk (ds : String) : Bool :=
  (isDigits ds && decide (ds.length ≤ 2)) ||
  (match ds.data with
   | [' ', c] => c.isDigit
   | _ => false)

/-- `datetime.strptime(v, "%Y-%m-%d")` succeeding.  CPython's `%Y`
matches exactly four digits, `%m` one or two digits with value 1..12,
and `%d` one or two digits with value 1..31 or a space-padded nonzero
single digit; the whole string must be consumed, and the final `date`
construction additionally requires a positive year and a day within the
month's length (leap years included).  Digits are ASCII digits. -/
def strptimeOk (s : String) : Bool :=
  match (splitChar '-' s.data).map String.mk with
  | [ys, ms, ds] =>
    isDigits ys && decide (ys.length = 4) &&
    isDigits ms && decide (ms.length ≤ 2) &&
    dayShapeOk ds &&
    (let y := digitsVal ys.data
     let mo := digitsVal ms.data
     let d := dayVal ds
     decide (1 ≤ y) && decide (1 ≤ mo) && decide (mo ≤ 12) &&
     decide (1 ≤ d) && decide (d ≤ daysInMonth y mo))
  | _ => false

/-- The validated record (`class CompModel(BaseModel)`). -/
structure CompModel where
  title : String
  link : String
  tags : List TagEnum
  summary : String
  developer : String
  date : Option String
  image : Option String
deriving DecidableEq

/-- Declared fields of `CompModel`. -/
def declaredFields : List String :=
  ["title", "link", "tags", "summary", "developer", "date", "image"]

/-- Required fields beyond `title` (which the loop passes as a keyword). -/
def requiredFields : List String :=
  ["link", "tags", "summary", "developer"]

/-- First binding of a key in the raw mapping (Python dict lookup; JSON
objects have unique keys). -/
def lookupField (fields : Fields) (k : String) : Option JValue :=
  (fields.find? (fun kv => kv.1 == k)).map Prod.snd

/-- Pydantic's handling of the `link` field: required, a string, and
the `_valid_link` validator asserts that `requests.get` answers 200
(an AssertionError there is collected as a field error).  Result value
and error flag. -/
def linkStep (env : Env) (fields : Fields) : String × Bool :=
  match lookupField fields "link" with
  | some (.jstr s) => (s, !env.getOk s)
  | _ => ("", true)

/-- Pydantic's handling of the `tags` field: required, a list each of
whose elements must coerce into the tag enum. -/
def tagsStep (fields : Fields) : List TagEnum × Bool :=
  match lookupField fields "tags" with
  | some (.jlist xs) =>
    match parseTags xs with
    | some ts => (ts, false)
    | none => ([], true)
  | _ => ([], true)

/-- Pydantic's handling of the `summary` field: required string. -/
def summaryStep (fields : Fields) : String × Bool :=
  match lookupField fields "summary" with
  | some (.jstr s) => (s, false)
  | _ => ("", true)

/-- Pydantic's handling of the `developer` field: required string. -/
def developerStep (fields : Fields) : String × Bool :=
  match lookupField fields "developer" with
  | some (.jstr s) => (s, false)
  | _ => ("", true)

/-- Pydantic's handling of the `date` field: optional with the default
`date.today().strftime("%Y-%m-%d")` (validators are skipped for the
default); a provided string must satisfy `strptime`; a provided `null`
makes `strptime` raise TypeError, which pydantic collects. -/
def dateStep (env : Env) (fields : Fields) : Option String × Bool :=
  match lookupField fields "date" with
  | none => (some env.today, false)
  | some (.jstr s) => (some s, !strptimeOk s)
  | some _ => (none, true)

/-- `extra = "forbid"`: any unknown key is a collected field error. -/
def extraErr (fields : Fields) : Bool :=
  fields.any (fun kv => !(declaredFields.contains kv.1))

/-- Some field error was collected during validation. -/
def anyFieldErr (env : Env) (fields : Fields) : Bool :=
  (linkStep env fields).2 || (tagsStep fields).2 || (summaryStep fields).2 ||
  (developerStep fields).2 || (dateStep env fields).2 || extraErr fields

/-- The constructor call `CompModel(title=comp_name, **comp)`.

A `title` key in the mapping collides with the explicit keyword argument
and raises TypeError before pydantic runs.  Otherwise pydantic validates
the declared fields in declaration order, collecting field errors
(missing required fields, type mismatches, and ValueError/TypeError/
AssertionError raised inside validators), lets any other exception from
a validator escape, finally records unknown keys (`extra = "forbid"`)
and raises ValidationError when any error was collected. -/
def compModelInit (env : Env) (st : State) (title : String) (fields : Fields) :
    Except PyError CompModel × State :=
  if fields.any (fun kv => kv.1 == "title") then
    (.error .TypeError, st)
  else
    match imageStep env st (lookupField fields "image") with
    | (.uncaught e, st') => (.error e, st')
    | (.fieldError, st') => (.error .ValidationError, st')
    | (.ok img, st') =>
      (if anyFieldErr env fields then
        .error .ValidationError
      else
        .ok ⟨title, (linkStep env fields).1, (tagsStep fields).1,
              (summaryStep fields).1, (developerStep fields).1,
              (dateStep env fields).1, img⟩, st')

/-- Rendered tag list: `"[" + ",".join(item.name for item in tags) + "]"`. -/
def tagsRender (ts : List TagEnum) : String :=
  "[" ++ strJoin "," (ts.map TagEnum.tagName) ++ "]"

/-- Python string formatting of an optional value (`None` prints as
`"None"`; unreachable for accepted records, whose date is always set). -/
def renderOptStr : Option String → String
  | some s => s
  | none => "None"

/-- The front-matter text built in the loop body: `CompModel.dict()`
replaces the image by its basename, the rendering dict maps the tag list
to its bracketed form, and one of two fixed templates is formatted
depending on whether an image is present. -/
def frontMatter (m : CompModel) : String :=
  match m.image with
  | some img =>
    "title: " ++ m.title ++ "\ndate: " ++ renderOptStr m.date ++
    "\ndraft: true\nhideLastModified: true\nshowInMenu: false\nsummaryImage: " ++
    pathName img ++ "\nsummary: " ++ m.summary ++ "\nlink: " ++ m.link ++
    "\ntags: " ++ tagsRender m.tags ++ "\n"
  | none =>
    "title: " ++ m.title ++ "\ndate: " ++ renderOptStr m.date ++
    "\ndraft: true\nhideLastModified: true\nshowInMenu: false\nsummary: " ++
    m.summary ++ "\nlink: " ++ m.link ++ "\ntags: " ++ tagsRender m.tags ++ "\n"

/-- End of one loop iteration: remove the shared temporary directory
when present (this sits inside the `for` loop in automate.py).  The
removal counter records each `shutil.rmtree` on it. -/
def finishIter (st : State) : State × Option PyError :=
  if st.fs.isDir tmpRoot then
    (⟨st.fs.rmtree tmpRoot, st.nextUuid, st.tmpRemovals + 1⟩, none)
  else
    (st, none)

/-- Prepare the per-component output directory: delete it recursively
when it exists, then create it. -/
def prepOutDir (fs : FS) (cpath : PathC) : FS :=
  (if fs.isDir cpath then fs.rmtree cpath else fs).mkdir cpath

/-- The writer part of one loop iteration, after successful validation:
delete and recreate the output directory named after the title, copy
the image into it when present (`shutil.copy` raises when the source
vanished), write `index.md` wrapped in the front-matter delimiters,
then remove the temporary directory when present. -/
def writeComponent (m : CompModel) (st' : State) : State × Option PyError :=
  let cpath := contentRoot ++ pathOfString m.title
  let fs2 := prepOutDir st'.fs cpath
  match m.image with
  | some img =>
    match fs2.lookupFile (pathOfString img) with
    | none => (⟨fs2, st'.nextUuid, st'.tmpRemovals⟩, some .FileNotFoundError)
    | some c =>
      finishIter ⟨(fs2.writeFile (cpath ++ [pathName img]) c).writeFile
          (cpath ++ ["index.md"]) ("---\n" ++ frontMatter m ++ "---"),
        st'.nextUuid, st'.tmpRemovals⟩
  | none =>
    finishIter ⟨fs2.writeFile (cpath ++ ["index.md"]) ("---\n" ++ frontMatter m ++ "---"),
      st'.nextUuid, st'.tmpRemovals⟩

/-- One iteration of the module-level `for comp_name, comp in
data.items()` loop: validate, then write.  An exception leaves the
state as it was when the exception was raised. -/
def processComponent (env : Env) (st : State) (name : String) (fields : Fields) :
    State × Option PyError :=
  match compModelInit env st name fields with
  | (.error e, st') => (st', some e)
  | (.ok m, st') => writeComponent m st'

/-- The whole module-level loop over the JSON object, in iteration
order.  The first exception aborts the run, leaving the state reached at
that point. -/
def runBatch (env : Env) : State → List (String × Fields) → State × Option PyError
  | st, [] => (st, none)
  | st, (name, fields) :: rest =>
    match processComponent env st name fields with
    | (st', none) => runBatch env st' rest
    | (st', some e) => (st', some e)

/-- A tag value outside the fixed vocabulary (including non-string
elements of the tags list). -/
def badTag : JValue → Bool
  | .jstr s => (tagOfValue s).isNone
  | _ => true

/-- A required field is missing, or a key outside the declared field
set is present. -/
def missingOrExtra (fields : Fields) : Bool :=
  requiredFields.any (fun k => (lookupField fields k).isNone) || extraErr fields

/-- The image value avoids the uncaught-exception paths of the image
validator: absent, a non-string (a collected type error), a remote URL,
or a local path that exists on disk.  An explicit null raises
AttributeError in the validator and a missing local path raises
NameError, both of which escape pydantic. -/
def imageSafe (fields : Fields) (fs : FS) : Bool :=
  match lookupField fields "image" with
  | none => true
  | some (.jstr v) => strStartsWith v "http" || fs.isFile (pathOfString v)
  | some .jnull => false
  | some (.jlist _) => true

/-- Image admissibility per the specification: absent, or a remote URL
answering success, or a local path existing on disk. -/
def imageOkSpec (env : Env) (fs : FS) (fields : Fields) : Bool :=
  match lookupField fields "image" with
  | none => true
  | some (.jstr v) =>
    if strStartsWith v "http" then env.getOk v else fs.isFile (pathOfString v)
  | some _ => false

/-- Validity of a raw input record, following the specification's words
(spec section 8): all required fields present with allowed values, link
reachable, optional image reachable (remote) or existing on disk
(local), optional date well-formed, no unknown fields, and no `title`
key (the title comes from the JSON key, not from the mapping).  This is
the specification side of the refinement claim C3, deliberately written
from the spec to be compared with the validator embedded from the
source. -/
def specValid (env : Env) (fs : FS) (fields : Fields) : Bool :=
  !(fields.any (fun kv => kv.1 == "title")) &&
  fields.all (fun kv => declaredFields.contains kv.1) &&
  (match lookupField fields "link" with
   | some (.jstr s) => env.getOk s
   | _ => false) &&
  (match lookupField fields "tags" with
   | some (.jlist xs) => (parseTags xs).isSome
   | _ => false) &&
  (match lookupField fields "summary" with
   | some (.jstr _) => true
   | _ => false) &&
  (match lookupField fields "developer" with
   | some (.jstr _) => true
   | _ => false) &&
  (match lookupField fields "date" with
   | none => true
   | some (.jstr s) => strptimeOk s
   | some _ => false) &&
  imageOkSpec env fs fields

/-- The files lying under the output root `content/components`. -/
def contentFiles (fs : FS) : List (PathC × String) :=
  fs.files.filter (fun f => contentRoot.isPrefixOf f.1)

/-- The directories lying under (or equal to) the output root. -/
def contentDirs (fs : FS) : List PathC :=
  fs.dirs.filter (fun d => contentRoot.isPrefixOf d)

/-! Concrete data for witnesses and counterexamples. -/

/-- Concrete environment: every URL reachable, a deterministic uuid
stream, a fixed date. -/
def envW : Env :=
  ⟨fun _ => true, fun _ => "IMGBYTES", fun n => "u" ++ toString n, "2024-01-02"⟩

/-- Concrete start state: empty filesystem except for the output root
and the input directory. -/
def stW : State :=
  ⟨⟨[], [contentRoot, ["static", "components"]]⟩, 0, 0⟩

/-- A valid raw mapping with no image. -/
def fieldsPlain : Fields :=
  [("link", .jstr "http://a.com"), ("tags", .jlist [.jstr "util", .jstr "gromacs"]),
   ("summary", .jstr "s"), ("developer", .jstr "d")]

/-- A valid raw mapping with a remote image. -/
def fieldsRemoteImage : Fields :=
  fieldsPlain ++ [("image", .jstr "http://a.com/pic.png")]

/-- An otherwise valid raw mapping whose image is a local path naming no
existing file. -/
def fieldsLocalMissing : Fields :=
  fieldsPlain ++ [("image", .jstr "imgs/ghost.png")]

/-- A raw mapping missing the required `link` whose image is a local
path naming no existing file. -/
def fieldsMissingLinkBadImage : Fields :=
  [("tags", .jlist [.jstr "util"]), ("summary", .jstr "s"),
   ("developer", .jstr "d"), ("image", .jstr "ghost.png")]

/-- A batch of two components that both download a remote image. -/
def batchTwoRemote : List (String × Fields) :=
  [("A", fieldsRemoteImage), ("B", fieldsRemoteImage)]

/-- The record `fieldsPlain` validates to under `envW`. -/
def mFoo : CompModel :=
  ⟨"Foo", "http://a.com", [.Util, .Gromacs], "s", "d", some "2024-01-02", none⟩

/-- A state whose output directory for `Foo` already exists and holds a
stale file from a previous run. -/
def stStale : State :=
  ⟨⟨[(["content", "components", "Foo", "old.txt"], "stale")],
    [["content", "components"], ["content", "components", "Foo"]]⟩, 0, 0⟩

/-- A raw mapping whose summary smuggles a `summaryImage` line through
the template via an embedded newline. -/
def fieldsInject : Fields :=
  [("link", .jstr "http://a.com"), ("tags", .jlist [.jstr "util"]),
   ("summary", .jstr "x\nsummaryImage: y"), ("developer", .jstr "d")]

/-- The record `fieldsInject` validates to under `envW`. -/
def mInject : CompModel :=
  ⟨"Foo", "http://a.com", [.Util], "x\nsummaryImage: y", "d", some "2024-01-02", none⟩

/-- A record with a local image, used to witness the rendering claim. -/
def mImg : CompModel :=
  ⟨"Foo", "http://a.com", [.Util], "s", "d", some "2024-01-02", some "imgs/pic.png"⟩

end Automate

namespace Automate

/-! Helper lemmas. -/

theorem random_file_succ (env : Env) (suffix : String) (path : PathC) (unique : Bool)
    (fs : FS) (fuel k : Nat) :
    random_file env suffix path unique fs (fuel + 1) k =
      if unique && fs.isFile (pathJoin path (env.uuid k ++ suffix)) then
        random_file env suffix path unique fs fuel (k + 1)
      else
        some (pathJoin path (env.uuid k ++ suffix), k + 1) := rfl

theorem isDir_rmtree_self (fs : FS) (p : PathC) : (fs.rmtree p).isDir p = false := by
  simp only [FS.isDir, FS.rmtree, List.any_eq_false]
  intro d hmem
  rw [List.mem_filter] at hmem
  obtain ⟨-, hkeep⟩ := hmem
  intro hbeq
  rw [beq_iff_eq] at hbeq
  subst hbeq
  rw [List.isPrefixOf_iff_prefix.mpr (List.prefix_refl _)] at hkeep
  simp at hkeep

theorem finishIter_isDir_tmp (st : State) :
    (finishIter st).1.fs.isDir tmpRoot = false := by
  unfold finishIter
  by_cases h : st.fs.isDir tmpRoot = true
  · simp [h, isDir_rmtree_self]
  · simp at h
    simp [h]

theorem writeComponent_success_tmp (m : CompModel) (st₁ st' : State)
    (h : writeComponent m st₁ = (st', none)) :
    st'.fs.isDir tmpRoot = false := by
  unfold writeComponent at h
  cases himg : m.image with
  | none =>
    simp only [himg] at h
    have h1 := congrArg Prod.fst h
    simp only at h1
    rw [← h1]
    exact finishIter_isDir_tmp _
  | some img =>
    simp only [himg] at h
    cases hlk : (prepOutDir st₁.fs (contentRoot ++ pathOfString m.title)).lookupFile
        (pathOfString img) with
    | none => simp only [hlk] at h; simp at h
    | some c =>
      simp only [hlk] at h
      have h1 := congrArg Prod.fst h
      simp only at h1
      rw [← h1]
      exact finishIter_isDir_tmp _

theorem processComponent_success_tmp (env : Env) (st : State) (name : String)
    (fields : Fields) (st' : State)
    (h : processComponent env st name fields = (st', none)) :
    st'.fs.isDir tmpRoot = false := by
  unfold processComponent at h
  rcases hinit : compModelInit env st name fields with ⟨r, st₁⟩
  rw [hinit] at h
  cases r with
  | error e => simp at h
  | ok m => exact writeComponent_success_tmp m st₁ st' h

/-- C10: a raw mapping that itself contains a `title` key makes
`CompModel(title=comp_name, **comp)` raise TypeError (duplicate keyword
argument) rather than ValidationError, although `title` is a declared
field of the record. -/
theorem C10_title_key_raises_TypeError (env : Env) (st : State) (name : String)
    (fields : Fields) (h : fields.any (fun kv => kv.1 == "title") = true) :
    (compModelInit env st name fields).1 = .error .TypeError ∧
    declaredFields.contains "title" = true ∧
    PyError.TypeError ≠ PyError.ValidationError := by
  refine ⟨?_, by decide, by decide⟩
  simp [compModelInit, h]

/-- C10 witness: a concrete mapping carrying a `title` key. -/
theorem C10_title_key_raises_TypeError_witness :
    (compModelInit envW stW "Foo" (("title", .jstr "x") :: fieldsPlain)).1 =
      .error .TypeError ∧
    declaredFields.contains "title" = true ∧
    PyError.TypeError ≠ PyError.ValidationError :=
  C10_title_key_raises_TypeError envW stW "Foo" (("title", .jstr "x") :: fieldsPlain)
    (by simp [fieldsPlain])

/-- C2: an otherwise valid record whose image is a local path naming no
existing file does not fail with a ValidationError: the failing
`assert pfile.is_file()` evaluates a message f-string that references
the undefined name `p`, so the validator raises NameError, which
pydantic does not convert into a ValidationError.  The spec itself
flags this undefined variable as a latent defect. -/
theorem C2_local_missing_image_raises_NameError :
    (compModelInit envW stW "Foo" fieldsLocalMissing).1 = .error .NameError ∧
    PyError.NameError ≠ PyError.ValidationError := by
  constructor
  · rfl
  · decide

/-- C1 counterexample: with two components that both carry a remote
image, the run succeeds and `shutil.rmtree` is executed on the shared
temporary directory twice — once per component, inside the loop — not
exactly once after every component has been processed. -/
theorem C1_counterexample :
    (runBatch envW stW batchTwoRemote).2 = none ∧
    (runBatch envW stW batchTwoRemote).1.tmpRemovals = 2 ∧ (2 : Nat) ≠ 1 := by
  refine ⟨rfl, rfl, by decide⟩

/-- C1 amended: the shared temporary download directory is deleted at
the end of each component's iteration when it exists at that point; in
particular every successfully processed component, including the last
one of a successful nonempty run, leaves the directory absent. -/
theorem C1_tmpdir_removed_each_iteration :
    (∀ env st name fields st',
      processComponent env st name fields = (st', none) →
      st'.fs.isDir tmpRoot = false) ∧
    (∀ env st comps st',
      runBatch env st comps = (st', none) → comps ≠ [] →
      st'.fs.isDir tmpRoot = false) := by
  constructor
  · exact fun env st name fields st' h => processComponent_success_tmp env st name fields st' h
  · intro env st comps
    induction comps generalizing st with
    | nil => intro st' _ hne; exact absurd rfl hne
    | cons a rest ih =>
      intro st' h _
      obtain ⟨name, fields⟩ := a
      unfold runBatch at h
      rcases hp : processComponent env st name fields with ⟨st₁, err⟩
      rw [hp] at h
      cases err with
      | some e => simp at h
      | none =>
        simp only at h
        cases rest with
        | nil =>
          unfold runBatch at h
          have h1 : st₁ = st' := congrArg Prod.fst h
          rw [← h1]
          exact processComponent_success_tmp _ _ _ _ _ hp
        | cons b t => exact ih st₁ st' h (by simp)

/-- C1 amended witness: the two-remote-image batch ends with the
temporary directory absent. -/
theorem C1_tmpdir_removed_each_iteration_witness :
    ((runBatch envW stW batchTwoRemote).1).fs.isDir tmpRoot = false :=
  C1_tmpdir_removed_each_iteration.2 envW stW batchTwoRemote
    (runBatch envW stW batchTwoRemote).1 rfl (by simp [batchTwoRemote])

/-- C8: whenever some later draw of the uuid stream yields a name that
does not exist on disk (as the randomness of uuid4 guarantees in
practice), the recursive regeneration of `random_file` with
`unique=True` terminates within that many steps and the returned path
does not name an existing file at return time. -/
theorem C8_random_file_unique (env : Env) (suffix : String) (path : PathC) (fs : FS) :
    ∀ (i fuel k : Nat),
      fs.isFile (pathJoin path (env.uuid (k + i) ++ suffix)) = false →
      i < fuel →
      ∃ p k', random_file env suffix path true fs fuel k = some (p, k') ∧
        fs.isFile p = false := by
  intro i
  induction i with
  | zero =>
    intro fuel k hfresh hfuel
    obtain ⟨f, rfl⟩ : ∃ f, fuel = f + 1 := ⟨fuel - 1, by omega⟩
    rw [Nat.add_zero] at hfresh
    refine ⟨pathJoin path (env.uuid k ++ suffix), k + 1, ?_, hfresh⟩
    rw [random_file_succ]
    simp [hfresh]
  | succ i ih =>
    intro fuel k hfresh hfuel
    obtain ⟨f, rfl⟩ : ∃ f, fuel = f + 1 := ⟨fuel - 1, by omega⟩
    by_cases hc : fs.isFile (pathJoin path (env.uuid k ++ suffix)) = true
    · rw [random_file_succ]
      simp only [hc, Bool.and_true, if_pos]
      have hfresh' : fs.isFile (pathJoin path (env.uuid (k + 1 + i) ++ suffix)) = false := by
        have : k + 1 + i = k + (i + 1) := by omega
        rw [this]
        exact hfresh
      exact ih f (k + 1) hfresh' (by omega)
    · simp only [Bool.not_eq_true] at hc
      refine ⟨pathJoin path (env.uuid k ++ suffix), k + 1, ?_, hc⟩
      rw [random_file_succ]
      simp [hc]

theorem parseTags_eq_none (xs : List JValue) (h : xs.any badTag = true) :
    parseTags xs = none := by
  induction xs with
  | nil => simp at h
  | cons x t ih =>
    simp only [List.any_cons, Bool.or_eq_true] at h
    cases x with
    | jstr s =>
      rcases h with h | h
      · simp only [badTag, Option.isNone_iff_eq_none] at h
        simp [parseTags, h]
      · have ht := ih h
        cases hv : tagOfValue s <;> simp [parseTags, hv, ht]
    | jlist l => simp [parseTags]
    | jnull => simp [parseTags]

/-- C6: a raw mapping whose tags list contains a value outside the
fixed vocabulary (or a non-string element) is never accepted: the
constructor call fails with some exception on every path. -/
theorem C6_bad_tag_fails (env : Env) (st : State) (name : String) (fields : Fields)
    (xs : List JValue) (htags : lookupField fields "tags" = some (.jlist xs))
    (hbad : xs.any badTag = true) :
    ∃ e, (compModelInit env st name fields).1 = .error e := by
  unfold compModelInit
  by_cases ht : fields.any (fun kv => kv.1 == "title") = true
  · rw [if_pos ht]
    exact ⟨.TypeError, rfl⟩
  · rw [if_neg ht]
    rcases himg : imageStep env st (lookupField fields "image") with ⟨ir, st'⟩
    cases ir with
    | uncaught e => exact ⟨e, rfl⟩
    | fieldError => exact ⟨.ValidationError, rfl⟩
    | ok img =>
      refine ⟨.ValidationError, ?_⟩
      have htag2 : (tagsStep fields).2 = true := by
        simp [tagsStep, htags, parseTags_eq_none xs hbad]
      simp [anyFieldErr, htag2]

/-- C6 witness: a mapping with the unknown tag value `plumbing`. -/
theorem C6_bad_tag_fails_witness :
    ∃ e, (compModelInit envW stW "Foo"
      [("link", .jstr "http://a.com"), ("tags", .jlist [.jstr "plumbing"]),
       ("summary", .jstr "s"), ("developer", .jstr "d")]).1 = .error e :=
  C6_bad_tag_fails envW stW "Foo" _ [.jstr "plumbing"] rfl (by decide)

theorem isFile_mkdir (fs : FS) (p q : PathC) : (fs.mkdir p).isFile q = fs.isFile q := rfl

theorem imageStep_not_uncaught (env : Env) (st : State) (fields : Fields)
    (hsafe : imageSafe fields st.fs = true)
    (htmp : ∀ p, st.fs.isFile (tmpRoot ++ p) = false) :
    ∀ e, (imageStep env st (lookupField fields "image")).1 ≠ ImgResult.uncaught e := by
  intro e
  unfold imageSafe at hsafe
  cases hlf : lookupField fields "image" with
  | none => simp [imageStep]
  | some jv =>
    rw [hlf] at hsafe
    cases jv with
    | jnull => simp at hsafe
    | jlist l => simp [imageStep]
    | jstr v =>
      have hsafe' : (strStartsWith v "http" || st.fs.isFile (pathOfString v)) = true := hsafe
      simp only [imageStep]
      unfold valid_image
      by_cases hh : strStartsWith v "http" = true
      · rw [if_pos hh]
        by_cases hok : env.getOk v = true
        · rw [if_pos hok]
          have hfresh :
              (if st.fs.isDir tmpRoot then st.fs else st.fs.mkdir tmpRoot).isFile
                (pathJoin tmpRoot (env.uuid st.nextUuid ++
                  ("." ++ String.mk ((splitChar '.' v.data).getLastD [])))) = false := by
            by_cases hd : st.fs.isDir tmpRoot = true
            · rw [if_pos hd]; exact htmp _
            · simp only [Bool.not_eq_true] at hd
              rw [if_neg (by simp [hd])]
              rw [isFile_mkdir]
              exact htmp _
          simp only [random_file_succ, Bool.true_and, hfresh]
          simp
        · rw [if_neg hok]
          simp
      · rw [if_neg hh]
        simp only [Bool.not_eq_true] at hh
        rw [hh, Bool.false_or] at hsafe'
        rw [if_pos hsafe']
        simp

/-- C4 counterexample: a raw mapping missing the required `link` whose
image names a nonexistent local file fails with NameError (from the
undefined name `p` in the image validator's assertion message), not
with a ValidationError as the claim states for every mapping missing a
required field. -/
theorem C4_counterexample :
    missingOrExtra fieldsMissingLinkBadImage = true ∧
    (compModelInit envW stW "X" fieldsMissingLinkBadImage).1 = .error .NameError ∧
    PyError.NameError ≠ PyError.ValidationError := by
  refine ⟨by decide, rfl, by decide⟩

/-- C4 amended: a raw mapping missing one of the required fields
(`link`, `tags`, `summary`, `developer`) or containing a field name
outside the declared set fails with a ValidationError, provided it does
not also carry a `title` key (TypeError) and its image value does not
hit one of the validator's uncaught-exception paths (an explicit null,
or a local path naming no existing file). -/
theorem C4_missing_or_extra_ValidationError (env : Env) (st : State) (name : String)
    (fields : Fields)
    (hbad : missingOrExtra fields = true)
    (hnotitle : fields.any (fun kv => kv.1 == "title") = false)
    (hsafe : imageSafe fields st.fs = true)
    (htmp : ∀ p, st.fs.isFile (tmpRoot ++ p) = false) :
    (compModelInit env st name fields).1 = .error .ValidationError := by
  unfold compModelInit
  rw [if_neg (by simp [hnotitle])]
  rcases himg : imageStep env st (lookupField fields "image") with ⟨ir, st'⟩
  cases ir with
  | uncaught e =>
    have h1 := imageStep_not_uncaught env st fields hsafe htmp e
    rw [himg] at h1
    simp at h1
  | fieldError => rfl
  | ok img =>
    have herr : anyFieldErr env fields = true := by
      unfold missingOrExtra at hbad
      rw [Bool.or_eq_true] at hbad
      rcases hbad with hreq | hextra
      · rw [List.any_eq_true] at hreq
        obtain ⟨k, hkmem, hk⟩ := hreq
        rw [Option.isNone_iff_eq_none] at hk
        simp only [requiredFields, List.mem_cons, List.not_mem_nil, or_false] at hkmem
        rcases hkmem with rfl | rfl | rfl | rfl
        · have : (linkStep env fields).2 = true := by simp [linkStep, hk]
          simp [anyFieldErr, this]
        · have : (tagsStep fields).2 = true := by simp [tagsStep, hk]
          simp [anyFieldErr, this]
        · have : (summaryStep fields).2 = true := by simp [summaryStep, hk]
          simp [anyFieldErr, this]
        · have : (developerStep fields).2 = true := by simp [developerStep, hk]
          simp [anyFieldErr, this]
      · simp [anyFieldErr, hextra]
    simp [herr]

/-- C4 amended witness: a mapping missing `link`, with no image at all. -/
theorem C4_missing_or_extra_ValidationError_witness :
    (compModelInit envW stW "X"
      [("tags", .jlist [.jstr "util"]), ("summary", .jstr "s"),
       ("developer", .jstr "d")]).1 = .error .ValidationError :=
  C4_missing_or_extra_ValidationError envW stW "X"
    [("tags", .jlist [.jstr "util"]), ("summary", .jstr "s"), ("developer", .jstr "d")]
    (by decide) (by decide) (by decide) (fun p => rfl)

theorem imageStep_ok_of_spec (env : Env) (st : State) (fields : Fields)
    (h : imageOkSpec env st.fs fields = true)
    (htmp : ∀ p, st.fs.isFile (tmpRoot ++ p) = false) :
    ∃ img st', imageStep env st (lookupField fields "image") = (.ok img, st') := by
  unfold imageOkSpec at h
  cases hlf : lookupField fields "image" with
  | none => exact ⟨none, st, rfl⟩
  | some jv =>
    rw [hlf] at h
    cases jv with
    | jnull => simp at h
    | jlist l => simp at h
    | jstr v =>
      have h' : (if strStartsWith v "http" then env.getOk v
          else st.fs.isFile (pathOfString v)) = true := h
      simp only [imageStep]
      unfold valid_image
      by_cases hh : strStartsWith v "http" = true
      · rw [if_pos hh] at h'
        rw [if_pos hh, if_pos h']
        have hfresh :
            (if st.fs.isDir tmpRoot then st.fs else st.fs.mkdir tmpRoot).isFile
              (pathJoin tmpRoot (env.uuid st.nextUuid ++
                ("." ++ String.mk ((splitChar '.' v.data).getLastD [])))) = false := by
          by_cases hd : st.fs.isDir tmpRoot = true
          · rw [if_pos hd]; exact htmp _
          · simp only [Bool.not_eq_true] at hd
            rw [if_neg (by simp [hd])]
            rw [isFile_mkdir]
            exact htmp _
        simp only [random_file_succ, Bool.true_and, hfresh]
        exact ⟨_, _, rfl⟩
      · rw [if_neg hh] at h'
        rw [if_neg hh, if_pos h']
        exact ⟨some v, st, rfl⟩

/-- C3: a raw mapping that is valid in the sense of the specification
(required fields present with allowed values, link reachable, optional
image reachable or existing, optional date well-formed, no unknown
keys) is accepted by the validator, and the resulting record's title
equals the JSON key under which the mapping was stored.  The
`htmp` hypothesis says the generated temporary names do not collide
with existing files, which the randomness of uuid4 provides in
practice. -/
theorem C3_valid_record_accepted (env : Env) (st : State) (key : String) (fields : Fields)
    (hv : specValid env st.fs fields = true)
    (htmp : ∀ p, st.fs.isFile (tmpRoot ++ p) = false) :
    ∃ m st', compModelInit env st key fields = (.ok m, st') ∧ m.title = key := by
  unfold specValid at hv
  simp only [Bool.and_eq_true] at hv
  obtain ⟨⟨⟨⟨⟨⟨⟨htitle, hknown⟩, hlink⟩, htags⟩, hsum⟩, hdev⟩, hdate⟩, himg⟩ := hv
  have hlink2 : (linkStep env fields).2 = false := by
    unfold linkStep
    cases hl : lookupField fields "link" with
    | none => rw [hl] at hlink; simp at hlink
    | some jv =>
      rw [hl] at hlink
      cases jv with
      | jstr s => have hs : env.getOk s = true := hlink; simp [hs]
      | jnull => simp at hlink
      | jlist l => simp at hlink
  have htags2 : (tagsStep fields).2 = false := by
    unfold tagsStep
    cases hl : lookupField fields "tags" with
    | none => rw [hl] at htags; simp at htags
    | some jv =>
      rw [hl] at htags
      cases jv with
      | jstr s => simp at htags
      | jnull => simp at htags
      | jlist xs =>
        have hs : (parseTags xs).isSome = true := htags
        rw [Option.isSome_iff_exists] at hs
        obtain ⟨ts, hts⟩ := hs
        simp [hts]
  have hsum2 : (summaryStep fields).2 = false := by
    unfold summaryStep
    cases hl : lookupField fields "summary" with
    | none => rw [hl] at hsum; simp at hsum
    | some jv =>
      rw [hl] at hsum
      cases jv with
      | jstr s => simp
      | jnull => simp at hsum
      | jlist l => simp at hsum
  have hdev2 : (developerStep fields).2 = false := by
    unfold developerStep
    cases hl : lookupField fields "developer" with
    | none => rw [hl] at hdev; simp at hdev
    | some jv =>
      rw [hl] at hdev
      cases jv with
      | jstr s => simp
      | jnull => simp at hdev
      | jlist l => simp at hdev
  have hdate2 : (dateStep env fields).2 = false := by
    unfold dateStep
    cases hl : lookupField fields "date" with
    | none => simp
    | some jv =>
      rw [hl] at hdate
      cases jv with
      | jstr s => have hs : strptimeOk s = true := hdate; simp [hs]
      | jnull => simp at hdate
      | jlist l => simp at hdate
  have hextra2 : extraErr fields = false := by
    unfold extraErr
    rw [List.any_eq_false]
    intro kv hkv
    rw [List.all_eq_true] at hknown
    simpa using hknown kv hkv
  have hanyerr : anyFieldErr env fields = false := by
    simp [anyFieldErr, hlink2, htags2, hsum2, hdev2, hdate2, hextra2]
  obtain ⟨img, st', hstep⟩ := imageStep_ok_of_spec env st fields himg htmp
  unfold compModelInit
  rw [if_neg (by simp only [Bool.not_eq_true'] at htitle; simp [htitle])]
  rw [hstep]
  refine ⟨⟨key, (linkStep env fields).1, (tagsStep fields).1, (summaryStep fields).1,
    (developerStep fields).1, (dateStep env fields).1, img⟩, st', ?_, rfl⟩
  simp [hanyerr]

/-- C3 witness: a concrete valid mapping on an empty filesystem. -/
theorem C3_valid_record_accepted_witness :
    ∃ m st', compModelInit envW stW "Foo" fieldsPlain = (.ok m, st') ∧
      m.title = "Foo" :=
  C3_valid_record_accepted envW stW "Foo" fieldsPlain (by decide) (fun p => rfl)

theorem mem_writeFile_iff (fs : FS) (p : PathC) (c : String) (f : PathC) (d : String) :
    (f, d) ∈ (fs.writeFile p c).files ↔
      (f = p ∧ d = c) ∨ ((f, d) ∈ fs.files ∧ f ≠ p) := by
  simp [FS.writeFile, List.mem_filter, bne_iff_ne, Prod.mk.injEq]

theorem mem_rmtree_iff (fs : FS) (p : PathC) (f : PathC) (d : String) :
    (f, d) ∈ (fs.rmtree p).files ↔
      (f, d) ∈ fs.files ∧ p.isPrefixOf f = false := by
  simp [FS.rmtree, List.mem_filter, Bool.not_eq_true']

theorem isDir_writeFile (fs : FS) (p : PathC) (c : String) (q : PathC) :
    (fs.writeFile p c).isDir q = fs.isDir q := rfl

theorem mem_prepOutDir_iff (fs : FS) (cpath : PathC) (f : PathC) (d : String)
    (hdir : fs.isDir cpath = true) :
    (f, d) ∈ (prepOutDir fs cpath).files ↔
      (f, d) ∈ fs.files ∧ cpath.isPrefixOf f = false := by
  unfold prepOutDir
  rw [if_pos hdir]
  show (f, d) ∈ (fs.rmtree cpath).files ↔ _
  exact mem_rmtree_iff fs cpath f d

theorem isDir_prepOutDir_self (fs : FS) (cpath : PathC) :
    (prepOutDir fs cpath).isDir cpath = true := by
  unfold prepOutDir
  simp [FS.mkdir, FS.isDir]

theorem cons_isPrefixOf_cons (a b : String) (l₁ l₂ : List String) :
    (a :: l₁).isPrefixOf (b :: l₂) = (a == b && l₁.isPrefixOf l₂) := rfl

theorem tmpRoot_not_prefix_content (l : List String) :
    tmpRoot.isPrefixOf (contentRoot ++ l) = false := by
  show (("static" : String) :: _).isPrefixOf (("content" : String) :: _) = false
  rw [cons_isPrefixOf_cons]
  rw [show (("static" : String) == "content") = false from rfl]
  simp

theorem contentRoot_not_prefix_tmp (l : List String) :
    contentRoot.isPrefixOf (tmpRoot ++ l) = false := by
  show (("content" : String) :: _).isPrefixOf (("static" : String) :: _) = false
  rw [cons_isPrefixOf_cons]
  rw [show (("content" : String) == "static") = false from rfl]
  simp

/-- A path lying under `content/components/<title>` is not under the
temporary root. -/
theorem tmpRoot_not_prefix_of_content_prefix (cpath f : PathC) (l : List String)
    (hc : cpath = contentRoot ++ l) (h : cpath.isPrefixOf f = true) :
    tmpRoot.isPrefixOf f = false := by
  subst hc
  rw [List.isPrefixOf_iff_prefix] at h
  obtain ⟨t, rfl⟩ := h
  rw [List.append_assoc]
  exact tmpRoot_not_prefix_content _

theorem isPrefixOf_append_self (p l : PathC) : p.isPrefixOf (p ++ l) = true :=
  List.isPrefixOf_iff_prefix.mpr ⟨l, rfl⟩

theorem rmtreeTmp_mem_iff (W : FS) (f : PathC) (d : String)
    (hf : tmpRoot.isPrefixOf f = false) :
    ((f, d) ∈ (W.rmtree tmpRoot).files ↔ (f, d) ∈ W.files) := by
  rw [mem_rmtree_iff]
  simp [hf]

theorem rmtreeTmp_isDir_eq (W : FS) (q : PathC)
    (hq : tmpRoot.isPrefixOf q = false) :
    (W.rmtree tmpRoot).isDir q = W.isDir q := by
  unfold FS.isDir FS.rmtree
  simp only
  rw [Bool.eq_iff_iff]
  simp only [List.any_eq_true, List.mem_filter]
  constructor
  · rintro ⟨dd, ⟨hmem, -⟩, hbq⟩
    exact ⟨dd, hmem, hbq⟩
  · rintro ⟨dd, hmem, hbq⟩
    refine ⟨dd, ⟨hmem, ?_⟩, hbq⟩
    rw [beq_iff_eq] at hbq
    subst hbq
    simp [hq]

theorem finishIter_fs_cases (st : State) (st' : State) (e : Option PyError)
    (h : finishIter st = (st', e)) :
    st'.fs = st.fs ∨ st'.fs = st.fs.rmtree tmpRoot := by
  unfold finishIter at h
  by_cases hd : st.fs.isDir tmpRoot = true
  · rw [if_pos hd] at h
    right
    have h1 : (⟨st.fs.rmtree tmpRoot, st.nextUuid, st.tmpRemovals + 1⟩ : State) = st' :=
      congrArg Prod.fst h
    rw [← h1]
  · rw [if_neg hd] at h
    left
    have h1 : st = st' := congrArg Prod.fst h
    rw [← h1]

/-- C7: when the output directory named after the validated title
already exists at writing time, it is deleted recursively and
recreated: after a successful iteration the directory exists, it holds
the newly written `index.md` wrapped in the front-matter delimiters,
and every file below the directory is either that `index.md` or (when
an image is present) the copied image file — nothing from before the
iteration survives. -/
theorem C7_output_dir_replaced (env : Env) (st : State) (name : String) (fields : Fields)
    (m : CompModel) (st₁ st' : State)
    (hinit : compModelInit env st name fields = (.ok m, st₁))
    (hdir : st₁.fs.isDir (contentRoot ++ pathOfString m.title) = true)
    (hproc : processComponent env st name fields = (st', none)) :
    st'.fs.isDir (contentRoot ++ pathOfString m.title) = true ∧
    (contentRoot ++ pathOfString m.title ++ ["index.md"],
      "---\n" ++ frontMatter m ++ "---") ∈ st'.fs.files ∧
    ∀ f c, (f, c) ∈ st'.fs.files →
      (contentRoot ++ pathOfString m.title).isPrefixOf f = true →
      f ≠ contentRoot ++ pathOfString m.title →
      (f = contentRoot ++ pathOfString m.title ++ ["index.md"] ∧
        c = "---\n" ++ frontMatter m ++ "---") ∨
      ∃ img, m.image = some img ∧
        f = contentRoot ++ pathOfString m.title ++ [pathName img] := by
  unfold processComponent at hproc
  rw [hinit] at hproc
  replace hproc : writeComponent m st₁ = (st', none) := hproc
  unfold writeComponent at hproc
  have hnotmp : ∀ f : PathC,
      (contentRoot ++ pathOfString m.title).isPrefixOf f = true →
      tmpRoot.isPrefixOf f = false :=
    fun f hf => tmpRoot_not_prefix_of_content_prefix _ f (pathOfString m.title) rfl hf
  cases himg : m.image with
  | none =>
    simp only [himg] at hproc
    have hfs := finishIter_fs_cases _ _ _ hproc
    simp only at hfs
    have hmemiff : ∀ f d, tmpRoot.isPrefixOf f = false →
        ((f, d) ∈ st'.fs.files ↔
          (f, d) ∈ ((prepOutDir st₁.fs (contentRoot ++ pathOfString m.title)).writeFile
            (contentRoot ++ pathOfString m.title ++ ["index.md"])
            ("---\n" ++ frontMatter m ++ "---")).files) := by
      intro f d hf
      rcases hfs with h | h <;> rw [h]
      exact rmtreeTmp_mem_iff _ f d hf
    have hdireq : st'.fs.isDir (contentRoot ++ pathOfString m.title) =
        ((prepOutDir st₁.fs (contentRoot ++ pathOfString m.title)).writeFile
          (contentRoot ++ pathOfString m.title ++ ["index.md"])
          ("---\n" ++ frontMatter m ++ "---")).isDir
          (contentRoot ++ pathOfString m.title) := by
      rcases hfs with h | h <;> rw [h]
      exact rmtreeTmp_isDir_eq _ _ (tmpRoot_not_prefix_content _)
    refine ⟨?_, ?_, ?_⟩
    · rw [hdireq, isDir_writeFile]
      exact isDir_prepOutDir_self _ _
    · rw [hmemiff _ _ (hnotmp _ (isPrefixOf_append_self _ ["index.md"]))]
      rw [mem_writeFile_iff]
      exact Or.inl ⟨rfl, rfl⟩
    · intro f c hmem hpre hne
      rw [hmemiff _ _ (hnotmp _ hpre)] at hmem
      rw [mem_writeFile_iff] at hmem
      rcases hmem with ⟨rfl, rfl⟩ | ⟨hmem, -⟩
      · exact Or.inl ⟨rfl, rfl⟩
      · rw [mem_prepOutDir_iff _ _ _ _ hdir] at hmem
        rw [hmem.2] at hpre
        exact absurd hpre (by simp)
  | some img =>
    simp only [himg] at hproc
    cases hlk : (prepOutDir st₁.fs (contentRoot ++ pathOfString m.title)).lookupFile
        (pathOfString img) with
    | none => simp only [hlk] at hproc; simp at hproc
    | some c₀ =>
      simp only [hlk] at hproc
      have hfs := finishIter_fs_cases _ _ _ hproc
      simp only at hfs
      have hmemiff : ∀ f d, tmpRoot.isPrefixOf f = false →
          ((f, d) ∈ st'.fs.files ↔
            (f, d) ∈ (((prepOutDir st₁.fs (contentRoot ++ pathOfString m.title)).writeFile
              (contentRoot ++ pathOfString m.title ++ [pathName img]) c₀).writeFile
              (contentRoot ++ pathOfString m.title ++ ["index.md"])
              ("---\n" ++ frontMatter m ++ "---")).files) := by
        intro f d hf
        rcases hfs with h | h <;> rw [h]
        exact rmtreeTmp_mem_iff _ f d hf
      have hdireq : st'.fs.isDir (contentRoot ++ pathOfString m.title) =
          (((prepOutDir st₁.fs (contentRoot ++ pathOfString m.title)).writeFile
            (contentRoot ++ pathOfString m.title ++ [pathName img]) c₀).writeFile
            (contentRoot ++ pathOfString m.title ++ ["index.md"])
            ("---\n" ++ frontMatter m ++ "---")).isDir
            (contentRoot ++ pathOfString m.title) := by
        rcases hfs with h | h <;> rw [h]
        exact rmtreeTmp_isDir_eq _ _ (tmpRoot_not_prefix_content _)
      refine ⟨?_, ?_, ?_⟩
      · rw [hdireq, isDir_writeFile, isDir_writeFile]
        exact isDir_prepOutDir_self _ _
      · rw [hmemiff _ _ (hnotmp _ (isPrefixOf_append_self _ ["index.md"]))]
        rw [mem_writeFile_iff]
        exact Or.inl ⟨rfl, rfl⟩
      · intro f c hmem hpre hne
        rw [hmemiff _ _ (hnotmp _ hpre)] at hmem
        rw [mem_writeFile_iff] at hmem
        rcases hmem with ⟨rfl, rfl⟩ | ⟨hmem, -⟩
        · exact Or.inl ⟨rfl, rfl⟩
        · rw [mem_writeFile_iff] at hmem
          rcases hmem with ⟨rfl, rfl⟩ | ⟨hmem, -⟩
          · exact Or.inr ⟨img, rfl, rfl⟩
          · rw [mem_prepOutDir_iff _ _ _ _ hdir] at hmem
            rw [hmem.2] at hpre
            exact absurd hpre (by simp)

/-- C7 witness: rerunning over a state whose `content/components/Foo`
directory still holds a stale file replaces the directory entirely. -/
theorem C7_output_dir_replaced_witness :
    (processComponent envW stStale "Foo" fieldsPlain).1.fs.isDir
      (contentRoot ++ pathOfString mFoo.title) = true ∧
    (contentRoot ++ pathOfString mFoo.title ++ ["index.md"],
      "---\n" ++ frontMatter mFoo ++ "---") ∈
      (processComponent envW stStale "Foo" fieldsPlain).1.fs.files ∧
    ∀ f c, (f, c) ∈ (processComponent envW stStale "Foo" fieldsPlain).1.fs.files →
      (contentRoot ++ pathOfString mFoo.title).isPrefixOf f = true →
      f ≠ contentRoot ++ pathOfString mFoo.title →
      (f = contentRoot ++ pathOfString mFoo.title ++ ["index.md"] ∧
        c = "---\n" ++ frontMatter mFoo ++ "---") ∨
      ∃ img, mFoo.image = some img ∧
        f = contentRoot ++ pathOfString mFoo.title ++ [pathName img] :=
  C7_output_dir_replaced envW stStale "Foo" fieldsPlain mFoo stStale
    (processComponent envW stStale "Foo" fieldsPlain).1 rfl rfl rfl

theorem contentRoot_not_prefix_tmpRoot : contentRoot.isPrefixOf tmpRoot = false := by
  have h := contentRoot_not_prefix_tmp []
  rwa [List.append_nil] at h

theorem contentFiles_writeFile_static (fs : FS) (p : PathC) (c : String)
    (hp : contentRoot.isPrefixOf p = false) :
    contentFiles (fs.writeFile p c) = contentFiles fs := by
  unfold contentFiles FS.writeFile
  simp only
  rw [List.filter_cons_of_neg (by simp [hp])]
  rw [List.filter_filter]
  apply List.filter_congr
  intro x hx
  by_cases hcx : contentRoot.isPrefixOf x.1 = true
  · have hne : x.1 ≠ p := by
      intro he
      rw [he] at hcx
      rw [hcx] at hp
      exact absurd hp (by simp)
    simp [hcx, hne]
  · simp only [Bool.not_eq_true] at hcx
    simp [hcx]

theorem contentDirs_writeFile (fs : FS) (p : PathC) (c : String) :
    contentDirs (fs.writeFile p c) = contentDirs fs := rfl

theorem contentFiles_mkdir (fs : FS) (p : PathC) :
    contentFiles (fs.mkdir p) = contentFiles fs := rfl

theorem contentDirs_mkdir_static (fs : FS) (p : PathC)
    (hp : contentRoot.isPrefixOf p = false) :
    contentDirs (fs.mkdir p) = contentDirs fs := by
  unfold contentDirs FS.mkdir
  simp only
  rw [List.filter_cons_of_neg (by simp [hp])]

theorem random_file_shape (env : Env) (suffix : String) (path : PathC) (unique : Bool)
    (fs : FS) : ∀ fuel k p k',
      random_file env suffix path unique fs fuel k = some (p, k') →
      ∃ s, p = pathJoin path s := by
  intro fuel
  induction fuel with
  | zero => intro k p k' h; simp [random_file] at h
  | succ f ih =>
    intro k p k' h
    rw [random_file_succ] at h
    by_cases hc : (unique && fs.isFile (pathJoin path (env.uuid k ++ suffix))) = true
    · rw [if_pos hc] at h
      exact ih _ _ _ h
    · rw [if_neg hc] at h
      simp only [Option.some.injEq, Prod.mk.injEq] at h
      exact ⟨env.uuid k ++ suffix, h.1.symm⟩

theorem valid_image_fs_cases (env : Env) (st : State) (v : String) :
    ∃ fs1 : FS, (fs1 = st.fs ∨ fs1 = st.fs.mkdir tmpRoot) ∧
      ((valid_image env st v).2.fs = fs1 ∨
        ∃ s c, (valid_image env st v).2.fs = fs1.writeFile (pathJoin tmpRoot s) c) := by
  unfold valid_image
  by_cases hh : strStartsWith v "http" = true
  · rw [if_pos hh]
    by_cases hok : env.getOk v = true
    · rw [if_pos hok]
      simp only
      rcases hrf : random_file env ("." ++ String.mk ((splitChar '.' v.data).getLastD []))
          tmpRoot true (if st.fs.isDir tmpRoot then st.fs else st.fs.mkdir tmpRoot)
          ((if st.fs.isDir tmpRoot then st.fs else st.fs.mkdir tmpRoot).files.length + 1)
          st.nextUuid with _ | pk
      · refine ⟨if st.fs.isDir tmpRoot then st.fs else st.fs.mkdir tmpRoot, ?_, ?_⟩
        · by_cases hd : st.fs.isDir tmpRoot = true
          · rw [if_pos hd]; exact Or.inl rfl
          · rw [if_neg hd]; exact Or.inr rfl
        · exact Or.inl rfl
      · obtain ⟨pfile, k⟩ := pk
        obtain ⟨s, hs⟩ := random_file_shape env _ tmpRoot true _ _ _ _ _ hrf
        refine ⟨if st.fs.isDir tmpRoot then st.fs else st.fs.mkdir tmpRoot, ?_, ?_⟩
        · by_cases hd : st.fs.isDir tmpRoot = true
          · rw [if_pos hd]; exact Or.inl rfl
          · rw [if_neg hd]; exact Or.inr rfl
        · exact Or.inr ⟨s, env.body v, by rw [← hs]⟩
    · rw [if_neg hok]
      exact ⟨st.fs, Or.inl rfl, Or.inl rfl⟩
  · rw [if_neg hh]
    by_cases hf : st.fs.isFile (pathOfString v) = true
    · rw [if_pos hf]; exact ⟨st.fs, Or.inl rfl, Or.inl rfl⟩
    · rw [if_neg hf]; exact ⟨st.fs, Or.inl rfl, Or.inl rfl⟩

theorem imageStep_content (env : Env) (st : State) (jv : Option JValue) :
    contentFiles ((imageStep env st jv).2).fs = contentFiles st.fs ∧
    contentDirs ((imageStep env st jv).2).fs = contentDirs st.fs := by
  match jv with
  | none => exact ⟨rfl, rfl⟩
  | some .jnull => exact ⟨rfl, rfl⟩
  | some (.jlist l) => exact ⟨rfl, rfl⟩
  | some (.jstr v) =>
    show contentFiles ((valid_image env st v).2).fs = _ ∧
      contentDirs ((valid_image env st v).2).fs = _
    obtain ⟨fs1, hfs1, hres⟩ := valid_image_fs_cases env st v
    have hc1 : contentFiles fs1 = contentFiles st.fs ∧
        contentDirs fs1 = contentDirs st.fs := by
      rcases hfs1 with rfl | rfl
      · exact ⟨rfl, rfl⟩
      · exact ⟨contentFiles_mkdir _ _, contentDirs_mkdir_static _ _ contentRoot_not_prefix_tmpRoot⟩
    rcases hres with h | ⟨s, c, h⟩
    · rw [h]; exact hc1
    · rw [h]
      constructor
      · rw [contentFiles_writeFile_static fs1 (pathJoin tmpRoot s) c
          (contentRoot_not_prefix_tmp (pathOfString s))]
        exact hc1.1
      · rw [contentDirs_writeFile]
        exact hc1.2

theorem compModelInit_content (env : Env) (st : State) (t : String) (fields : Fields) :
    contentFiles ((compModelInit env st t fields).2).fs = contentFiles st.fs ∧
    contentDirs ((compModelInit env st t fields).2).fs = contentDirs st.fs := by
  unfold compModelInit
  by_cases ht : fields.any (fun kv => kv.1 == "title") = true
  · rw [if_pos ht]
    exact ⟨rfl, rfl⟩
  · rw [if_neg ht]
    have hc := imageStep_content env st (lookupField fields "image")
    rcases himg : imageStep env st (lookupField fields "image") with ⟨ir, st'⟩
    rw [himg] at hc
    simp only at hc
    cases ir with
    | uncaught e => exact hc
    | fieldError => exact hc
    | ok img => exact hc

theorem runBatch_cons (env : Env) (st : State) (nm : String) (fl : Fields)
    (rest : List (String × Fields)) :
    runBatch env st ((nm, fl) :: rest) =
      match processComponent env st nm fl with
      | (st', none) => runBatch env st' rest
      | (st', some e) => (st', some e) := rfl

theorem runBatch_append (env : Env) (l₁ l₂ : List (String × Fields)) :
    ∀ st st₁, runBatch env st l₁ = (st₁, none) →
      runBatch env st (l₁ ++ l₂) = runBatch env st₁ l₂ := by
  induction l₁ with
  | nil =>
    intro st st₁ h
    have h1 : st = st₁ := congrArg Prod.fst h
    rw [List.nil_append, h1]
  | cons a t ih =>
    intro st st₁ h
    obtain ⟨nm, fl⟩ := a
    rw [runBatch_cons] at h
    rw [List.cons_append, runBatch_cons]
    rcases hp : processComponent env st nm fl with ⟨st₂, err⟩
    rw [hp] at h
    cases err with
    | some e => simp at h
    | none => exact ih st₂ st₁ h

/-- C9: if validation of the i-th component (in iteration order) fails,
the run aborts there with an exception, and the part of the filesystem
under `content/components` ends exactly as it was after the first i
components were processed: nothing is created for the i-th or any later
component, while the output directories already written for earlier
components remain unchanged. -/
theorem C9_failure_aborts_run (env : Env) (st : State)
    (comps : List (String × Fields)) (i : Nat) (name : String) (fields : Fields)
    (st_i : State) (e : PyError)
    (hget : comps[i]? = some (name, fields))
    (hpre : runBatch env st (comps.take i) = (st_i, none))
    (hfail : (compModelInit env st_i name fields).1 = .error e) :
    ∃ st'' e', runBatch env st comps = (st'', some e') ∧
      contentFiles st''.fs = contentFiles st_i.fs ∧
      contentDirs st''.fs = contentDirs st_i.fs := by
  obtain ⟨hlen, hel⟩ := List.getElem?_eq_some.mp hget
  have hdrop : comps.drop i = (name, fields) :: comps.drop (i + 1) := by
    rw [List.drop_eq_getElem_cons hlen, hel]
  have hsplit : comps = comps.take i ++ comps.drop i := (List.take_append_drop i comps).symm
  rw [hsplit, runBatch_append env _ _ st st_i hpre, hdrop]
  rcases hinit : compModelInit env st_i name fields with ⟨r, st₂⟩
  have hr : r = .error e := by
    have := congrArg Prod.fst hinit
    simp only at this
    rw [← this]
    exact hfail
  subst hr
  have hproc : processComponent env st_i name fields = (st₂, some e) := by
    unfold processComponent
    rw [hinit]
  have hcontent := compModelInit_content env st_i name fields
  rw [hinit] at hcontent
  simp only at hcontent
  refine ⟨st₂, e, ?_, hcontent.1, hcontent.2⟩
  unfold runBatch
  rw [hproc]

/-- C9 witness: a two-component batch whose second component fails
validation; the run stops with its exception and the content region
equals the state after the first component. -/
theorem C9_failure_aborts_run_witness :
    ∃ st'' e', runBatch envW stW [("A", fieldsPlain), ("B", fieldsMissingLinkBadImage)] =
        (st'', some e') ∧
      contentFiles st''.fs =
        contentFiles (runBatch envW stW ([("A", fieldsPlain),
          ("B", fieldsMissingLinkBadImage)].take 1)).1.fs ∧
      contentDirs st''.fs =
        contentDirs (runBatch envW stW ([("A", fieldsPlain),
          ("B", fieldsMissingLinkBadImage)].take 1)).1.fs :=
  C9_failure_aborts_run envW stW [("A", fieldsPlain), ("B", fieldsMissingLinkBadImage)] 1
    "B" fieldsMissingLinkBadImage
    (runBatch envW stW ([("A", fieldsPlain), ("B", fieldsMissingLinkBadImage)].take 1)).1
    .NameError rfl rfl rfl

theorem splitChar_cons_eq (c x : Char) (xs : List Char) :
    splitChar c (x :: xs) =
      match splitChar c xs with
      | [] => [[]]
      | h :: t => if x = c then [] :: h :: t else (x :: h) :: t := rfl

theorem splitChar_ne_nil (c : Char) (l : List Char) : splitChar c l ≠ [] := by
  cases l with
  | nil => simp [splitChar]
  | cons x xs =>
    rw [splitChar_cons_eq]
    cases h : splitChar c xs with
    | nil => simp
    | cons hd tl => by_cases hx : x = c <;> simp [hx]

theorem splitChar_line (c : Char) (l r : List Char) (h : c ∉ l) :
    splitChar c (l ++ c :: r) = l :: splitChar c r := by
  induction l with
  | nil =>
    simp only [List.nil_append]
    rw [splitChar_cons_eq]
    cases hs : splitChar c r with
    | nil => exact absurd hs (splitChar_ne_nil c r)
    | cons hd tl => simp [hs]
  | cons x xs ih =>
    have hx : x ≠ c := by
      intro he
      exact h (he ▸ List.mem_cons_self x xs)
    have hxs : c ∉ xs := fun hm => h (List.mem_cons_of_mem _ hm)
    simp only [List.cons_append]
    rw [splitChar_cons_eq, ih hxs]
    simp [hx]

theorem splitChar_mem_not (c : Char) :
    ∀ (l : List Char) (part : List Char), part ∈ splitChar c l → c ∉ part := by
  intro l
  induction l with
  | nil =>
    intro part h
    simp [splitChar] at h
    subst h
    simp
  | cons x xs ih =>
    intro part h
    rw [splitChar_cons_eq] at h
    cases hs : splitChar c xs with
    | nil => exact absurd hs (splitChar_ne_nil c xs)
    | cons hd tl =>
      rw [hs] at h
      replace h : part ∈ (if x = c then [] :: hd :: tl else (x :: hd) :: tl) := h
      by_cases hx : x = c
      · rw [if_pos hx] at h
        rcases List.mem_cons.mp h with rfl | h2
        · simp
        · exact ih part (hs ▸ h2)
      · rw [if_neg hx] at h
        rcases List.mem_cons.mp h with rfl | h2
        · intro hmem
          rcases List.mem_cons.mp hmem with rfl | h3
          · exact hx rfl
          · exact ih hd (hs ▸ List.mem_cons_self hd tl) h3
        · exact ih part (hs ▸ List.mem_cons_of_mem hd h2)

theorem getLastD_memory {α : Type} :
    ∀ (l : List α) (d : α), l ≠ [] → l.getLastD d ∈ l := by
  intro l
  induction l with
  | nil => intro d h; exact absurd rfl h
  | cons a t ih =>
    intro d h
    cases t with
    | nil => simp [List.getLastD]
    | cons b u =>
      rw [List.getLastD_cons]
      exact List.mem_cons_of_mem a (ih a (by simp))

theorem pathName_no_slash (s : String) : '/' ∉ (pathName s).data := by
  unfold pathName
  intro hmem
  exact splitChar_mem_not '/' s.data _
    (getLastD_memory _ _ (splitChar_ne_nil '/' s.data)) hmem

theorem linesOf_chain (a rest : String) (h : '\n' ∉ a.data) :
    linesOf (a ++ "\n" ++ rest) = a :: linesOf rest := by
  unfold linesOf
  have hdata : (a ++ "\n" ++ rest).data = a.data ++ '\n' :: rest.data := by
    rw [String.data_append, String.data_append, List.append_assoc]
    rfl
  rw [hdata, splitChar_line '\n' a.data rest.data h, List.map_cons]

theorem not_mem_data_append (c : Char) (a b : String) (ha : c ∉ a.data)
    (hb : c ∉ b.data) : c ∉ (a ++ b).data := by
  rw [String.data_append]
  simp [ha, hb]

theorem tagName_no_newline (t : TagEnum) : '\n' ∉ (TagEnum.tagName t).data := by
  cases t <;> decide

theorem strJoin_no_mem (c : Char) (sep : String) (hsep : c ∉ sep.data) :
    ∀ l : List String, (∀ x ∈ l, c ∉ x.data) → c ∉ (strJoin sep l).data := by
  intro l
  induction l with
  | nil =>
    intro _
    simp [strJoin]
  | cons x t ih =>
    intro hall
    cases t with
    | nil => simpa [strJoin] using hall x (by simp)
    | cons y u =>
      rw [show strJoin sep (x :: y :: u) = x ++ sep ++ strJoin sep (y :: u) from rfl]
      apply not_mem_data_append
      · apply not_mem_data_append
        · exact hall x (by simp)
        · exact hsep
      · exact ih (fun z hz => hall z (List.mem_cons_of_mem _ hz))

theorem tagsRender_no_newline (ts : List TagEnum) : '\n' ∉ (tagsRender ts).data := by
  unfold tagsRender
  apply not_mem_data_append
  · apply not_mem_data_append
    · decide
    · refine strJoin_no_mem '\n' "," (by decide) _ ?_
      intro x hx
      obtain ⟨t, ht, rfl⟩ := List.mem_map.mp hx
      exact tagName_no_newline t
  · decide

theorem isPrefixOf_append_false (p l r : List Char) (n : Nat) (hn : n ≤ p.length)
    (hn2 : n ≤ l.length) (hne : p.take n ≠ l.take n) :
    p.isPrefixOf (l ++ r) = false := by
  rw [Bool.eq_false_iff]
  intro h
  rw [List.isPrefixOf_iff_prefix] at h
  apply hne
  have h1 : p = (l ++ r).take p.length := List.prefix_iff_eq_take.mp h
  calc p.take n = ((l ++ r).take p.length).take n := by rw [← h1]
    _ = (l ++ r).take (min n p.length) := List.take_take n p.length _
    _ = (l ++ r).take n := by rw [Nat.min_eq_left hn]
    _ = l.take n := List.take_append_of_le_length hn2

theorem isPrefixOf_append_of_length_le (p l r : List Char) (hlen : p.length ≤ l.length) :
    p.isPrefixOf (l ++ r) = p.isPrefixOf l := by
  rw [Bool.eq_iff_iff, List.isPrefixOf_iff_prefix, List.isPrefixOf_iff_prefix]
  constructor
  · intro h
    have h1 : p = (l ++ r).take p.length := List.prefix_iff_eq_take.mp h
    rw [List.take_append_of_le_length hlen] at h1
    rw [h1]
    exact List.take_prefix _ _
  · intro h
    exact h.trans (List.prefix_append l r)

theorem isSummaryImageLine_title (x : String) :
    isSummaryImageLine ("title: " ++ x) = false := by
  unfold isSummaryImageLine
  rw [String.data_append]
  exact isPrefixOf_append_false _ _ _ 1 (by decide) (by decide) (by decide)

theorem isSummaryImageLine_date (x : String) :
    isSummaryImageLine ("date: " ++ x) = false := by
  unfold isSummaryImageLine
  rw [String.data_append]
  exact isPrefixOf_append_false _ _ _ 1 (by decide) (by decide) (by decide)

theorem isSummaryImageLine_summary (x : String) :
    isSummaryImageLine ("summary: " ++ x) = false := by
  unfold isSummaryImageLine
  rw [String.data_append]
  exact isPrefixOf_append_false _ _ _ 8 (by decide) (by decide) (by decide)

theorem isSummaryImageLine_link (x : String) :
    isSummaryImageLine ("link: " ++ x) = false := by
  unfold isSummaryImageLine
  rw [String.data_append]
  exact isPrefixOf_append_false _ _ _ 1 (by decide) (by decide) (by decide)

theorem isSummaryImageLine_tags (x : String) :
    isSummaryImageLine ("tags: " ++ x) = false := by
  unfold isSummaryImageLine
  rw [String.data_append]
  exact isPrefixOf_append_false _ _ _ 1 (by decide) (by decide) (by decide)

theorem isSummaryImageLine_image (x : String) :
    isSummaryImageLine ("summaryImage: " ++ x) = true := by
  unfold isSummaryImageLine
  rw [String.data_append]
  rw [isPrefixOf_append_of_length_le _ _ _ (by decide)]
  decide

/-- C5 counterexample: a record whose summary embeds a newline followed
by a `summaryImage:` label validates successfully with no image, yet its
rendered front-matter block does contain a line starting with
`summaryImage` — the claim's universal statement fails. -/
theorem C5_counterexample :
    (compModelInit envW stW "Foo" fieldsInject).1 = .ok mInject ∧
    mInject.image = none ∧
    (linesOf (frontMatter mInject)).any isSummaryImageLine = true := by
  refine ⟨rfl, rfl, rfl⟩

/-- C5 amended: for records whose rendered field values (title, date,
summary, link, and the image basename) contain no newline character,
rendering with no image produces no `summaryImage` line, and rendering
with an image produces exactly one such line, whose value is the
filename component of the resolved image path and contains no directory
separator. -/
theorem C5_summaryImage_line (m : CompModel)
    (ht : '\n' ∉ m.title.data) (hd : '\n' ∉ (renderOptStr m.date).data)
    (hs : '\n' ∉ m.summary.data) (hl : '\n' ∉ m.link.data)
    (hi : ∀ img, m.image = some img → '\n' ∉ (pathName img).data) :
    (m.image = none → (linesOf (frontMatter m)).filter isSummaryImageLine = []) ∧
    (∀ img, m.image = some img →
      (linesOf (frontMatter m)).filter isSummaryImageLine =
        ["summaryImage: " ++ pathName img] ∧
      '/' ∉ (pathName img).data) := by
  have hstr : ∀ (s t : String), s.data = t.data → s = t := by
    intro s t h
    cases s
    cases t
    exact congrArg String.mk h
  constructor
  · intro h0
    have hfm : frontMatter m =
        "title: " ++ m.title ++ "\n" ++ ("date: " ++ renderOptStr m.date ++ "\n" ++
        ("draft: true" ++ "\n" ++ ("hideLastModified: true" ++ "\n" ++
        ("showInMenu: false" ++ "\n" ++ ("summary: " ++ m.summary ++ "\n" ++
        ("link: " ++ m.link ++ "\n" ++ ("tags: " ++ tagsRender m.tags ++ "\n" ++
          ""))))))) := by
      apply hstr
      unfold frontMatter
      rw [h0]
      simp only [String.data_append, List.append_assoc]
      rfl
    rw [hfm]
    rw [linesOf_chain _ _ (not_mem_data_append _ _ _ (by decide) ht)]
    rw [linesOf_chain _ _ (not_mem_data_append _ _ _ (by decide) hd)]
    rw [linesOf_chain _ _ (by decide)]
    rw [linesOf_chain _ _ (by decide)]
    rw [linesOf_chain _ _ (by decide)]
    rw [linesOf_chain _ _ (not_mem_data_append _ _ _ (by decide) hs)]
    rw [linesOf_chain _ _ (not_mem_data_append _ _ _ (by decide) hl)]
    rw [linesOf_chain _ _ (not_mem_data_append _ _ _ (by decide) (tagsRender_no_newline m.tags))]
    rw [show linesOf "" = [""] from rfl]
    simp [isSummaryImageLine_title, isSummaryImageLine_date, isSummaryImageLine_summary,
      isSummaryImageLine_link, isSummaryImageLine_tags,
      show isSummaryImageLine "draft: true" = false from by decide,
      show isSummaryImageLine "hideLastModified: true" = false from by decide,
      show isSummaryImageLine "showInMenu: false" = false from by decide,
      show isSummaryImageLine "" = false from by decide]
  · intro img h0
    have hfm : frontMatter m =
        "title: " ++ m.title ++ "\n" ++ ("date: " ++ renderOptStr m.date ++ "\n" ++
        ("draft: true" ++ "\n" ++ ("hideLastModified: true" ++ "\n" ++
        ("showInMenu: false" ++ "\n" ++ ("summaryImage: " ++ pathName img ++ "\n" ++
        ("summary: " ++ m.summary ++ "\n" ++ ("link: " ++ m.link ++ "\n" ++
        ("tags: " ++ tagsRender m.tags ++ "\n" ++ "")))))))) := by
      apply hstr
      unfold frontMatter
      rw [h0]
      simp only [String.data_append, List.append_assoc]
      rfl
    refine ⟨?_, pathName_no_slash img⟩
    rw [hfm]
    rw [linesOf_chain _ _ (not_mem_data_append _ _ _ (by decide) ht)]
    rw [linesOf_chain _ _ (not_mem_data_append _ _ _ (by decide) hd)]
    rw [linesOf_chain _ _ (by decide)]
    rw [linesOf_chain _ _ (by decide)]
    rw [linesOf_chain _ _ (by decide)]
    rw [linesOf_chain _ _ (not_mem_data_append _ _ _ (by decide) (hi img h0))]
    rw [linesOf_chain _ _ (not_mem_data_append _ _ _ (by decide) hs)]
    rw [linesOf_chain _ _ (not_mem_data_append _ _ _ (by decide) hl)]
    rw [linesOf_chain _ _ (not_mem_data_append _ _ _ (by decide) (tagsRender_no_newline m.tags))]
    rw [show linesOf "" = [""] from rfl]
    simp [isSummaryImageLine_title, isSummaryImageLine_date, isSummaryImageLine_summary,
      isSummaryImageLine_link, isSummaryImageLine_tags, isSummaryImageLine_image,
      show isSummaryImageLine "draft: true" = false from by decide,
      show isSummaryImageLine "hideLastModified: true" = false from by decide,
      show isSummaryImageLine "showInMenu: false" = false from by decide,
      show isSummaryImageLine "" = false from by decide]

/-- C5 amended witness: a record with the local image `imgs/pic.png`. -/
theorem C5_summaryImage_line_witness :
    (mImg.image = none → (linesOf (frontMatter mImg)).filter isSummaryImageLine = []) ∧
    (∀ img, mImg.image = some img →
      (linesOf (frontMatter mImg)).filter isSummaryImageLine =
        ["summaryImage: " ++ pathName img] ∧
      '/' ∉ (pathName img).data) :=
  C5_summaryImage_line mImg (by decide) (by decide) (by decide) (by decide)
    (fun img h => by rw [← Option.some.inj h]; decide)

/-- C8 witness: on an empty filesystem the first draw is already fresh. -/
theorem C8_random_file_unique_witness :
    ∃ p k', random_file envW "" ["d"] true ⟨[], []⟩ 1 0 = some (p, k') ∧
      FS.isFile ⟨[], []⟩ p = false :=
  C8_random_file_unique envW "" ["d"] ⟨[], []⟩ 0 1 0 (by decide) (by decide)

end Automate
